import Mathlib

/-!
# Verification of the ADC test firmware for the LaunchPad F28379D

Shallow embedding of the sampling-and-statistics core of
`lab_adc_launchpad` (files `lab_main.c` and `CONFIGURATIONS/adc_config.c`).

Modelling conventions:
* C `float` values are modelled as exact rationals (`ℚ`); the floating
  literals `0.0000503540039F` and `0.00080566406F` are taken at their
  exact decimal value.  Approximate claims are settled within the
  spec's stated tolerance of `1e-4`.
* Raw ADC samples (`uint16_t`) are modelled as `ℕ`.
* The per-channel statistics arrays (`minVoltages`, `maxVoltages`,
  `sumVoltages`, `avgVoltages`) become a `ChannelStats` record per
  channel; the two-channel arrays become pairs.
* The busy-wait/trigger protocol of `AdcConversion` is embedded as the
  trace of driver calls it performs, parametrised by the number of
  failed polls of each channel's completion flag.
-/

namespace AdcLab

/-! ## Constants (adc_config.h, lab_main.c) -/

/-- `#define NUM_ADC_CHANNELS 2` (adc_config.h). -/
def NUM_ADC_CHANNELS : ℕ := 2

/-- `#define TEST_ITERATIONS 10` (lab_main.c line 40): stats display interval. -/
def TEST_ITERATIONS : ℕ := 10

/-- `#define DIFFERENTIAL 0.0000503540039F` (adc_config.h):
conversion factor for the 16-bit differential channel, modelled as the
exact value of the decimal literal. -/
def DIFFERENTIAL : ℚ := 503540039 / 10 ^ 13

/-- `#define SINGLE_ENDED 0.00080566406F` (adc_config.h):
conversion factor for the 12-bit single-ended channel, modelled as the
exact value of the decimal literal. -/
def SINGLE_ENDED : ℚ := 80566406 / 10 ^ 11

/-! ## Calibration (`AdcResult`, adc_config.c lines 89-101) -/

/-- Channel 0 of `AdcResult`:
`int32_t signedValue = (int32_t)read[0] - 32768;`
`voltage[0] = (float)signedValue * DIFFERENTIAL;` -/
def adcResultDiff (raw : ℕ) : ℚ := ((raw : ℤ) - 32768 : ℤ) * DIFFERENTIAL

/-- Channel 1 of `AdcResult`: `voltage[1] = (float)read[1] * SINGLE_ENDED;` -/
def adcResultSE (raw : ℕ) : ℚ := (raw : ℚ) * SINGLE_ENDED

/-- `AdcResult(voltage, read)` on the two-channel read array. -/
def AdcResult (read : ℕ × ℕ) : ℚ × ℚ := (adcResultDiff read.1, adcResultSE read.2)

/-! ## Statistics window (lab_main.c lines 318-346, 411-458) -/

/-- One channel's slice of the statistics arrays
`minVoltages[i]`, `maxVoltages[i]`, `sumVoltages[i]`, `avgVoltages[i]`. -/
structure ChannelStats where
  minV : ℚ
  maxV : ℚ
  sumV : ℚ
  avgV : ℚ
  deriving DecidableEq

/-- `InitStatistics` for one channel (lab_main.c lines 318-328):
`minVoltages[i] = 10.0f; maxVoltages[i] = -10.0f;`
`sumVoltages[i] = 0.0f; avgVoltages[i] = 0.0f;` -/
def initChannelStats : ChannelStats :=
  { minV := 10, maxV := -10, sumV := 0, avgV := 0 }

/-- `UpdateStatistics` for one channel (lab_main.c lines 333-346):
`if (adcVoltages[i] < minVoltages[i]) minVoltages[i] = adcVoltages[i];`
`if (adcVoltages[i] > maxVoltages[i]) maxVoltages[i] = adcVoltages[i];`
`sumVoltages[i] += adcVoltages[i];` -/
def updateChannelStats (s : ChannelStats) (v : ℚ) : ChannelStats :=
  { s with
    minV := if v < s.minV then v else s.minV
    maxV := if v > s.maxV then v else s.maxV
    sumV := s.sumV + v }

/-- Repeated `UpdateStatistics` calls on one channel, one per round. -/
def runChannelUpdates (s : ChannelStats) (vs : List ℚ) : ChannelStats :=
  vs.foldl updateChannelStats s

/-- `DisplayStatistics` sample-count computation (lab_main.c lines 414-415):
`uint32_t sampleCount = testIteration % TEST_ITERATIONS;`
`if (sampleCount == 0) sampleCount = TEST_ITERATIONS;` -/
def displaySampleCount (testIteration : ℕ) : ℕ :=
  if testIteration % TEST_ITERATIONS = 0 then TEST_ITERATIONS
  else testIteration % TEST_ITERATIONS

/-- The per-channel statistics summary emitted by `DisplayStatistics`. -/
structure StatsReport where
  minV : ℚ
  maxV : ℚ
  avgV : ℚ
  peakToPeak : ℚ
  sampleCount : ℕ
  deriving DecidableEq

/-- `DisplayStatistics` body for one channel (lab_main.c lines 431-454):
`float peakToPeak = (maxVoltages[i] - minVoltages[i]) * 1000.0f;`
`avgVoltages[i] = sumVoltages[i] / (float)sampleCount;`
min, max and avg are sent in volts, peak-to-peak in millivolts. -/
def displayChannelStatistics (s : ChannelStats) (sampleCount : ℕ) : StatsReport :=
  { minV := s.minV
    maxV := s.maxV
    avgV := s.sumV / (sampleCount : ℚ)
    peakToPeak := (s.maxV - s.minV) * 1000
    sampleCount := sampleCount }

/-! ## Self-check (`VerifyADCReadings`, lab_main.c lines 463-487) -/

/-- Plausibility test for the differential channel (channel 0):
`if (adcRawData[i] > 100 && adcRawData[i] < 65435) validCount++;` -/
def plausibleDiff (raw : ℕ) : Bool := decide (100 < raw ∧ raw < 65435)

/-- Plausibility test for the single-ended channel (channel 1):
`if (adcRawData[i] > 10 && adcRawData[i] < 4086) validCount++;` -/
def plausibleSE (raw : ℕ) : Bool := decide (10 < raw ∧ raw < 4086)

/-- `validCount` accumulated by the loop in `VerifyADCReadings`. -/
def verifyValidCount (raw : ℕ × ℕ) : ℕ :=
  (if plausibleDiff raw.1 then 1 else 0) + (if plausibleSE raw.2 then 1 else 0)

/-- `VerifyADCReadings`: `return (validCount > 0);` -/
def VerifyADCReadings (raw : ℕ × ℕ) : Bool := decide (0 < verifyValidCount raw)

/-! ## Monitor loop (lab_main.c lines 159-188)

One iteration of `while(1)` performs `AdcConversion`, `AdcResult`,
`UpdateStatistics`, then — when `testIteration > 0 &&
testIteration % TEST_ITERATIONS == 0` — `DisplayStatistics` followed by
`InitStatistics`, and finally `testIteration++`.  The acquisition is
abstracted by feeding the loop the list of raw sample pairs it reads,
one pair per round; the reports the loop emits are accumulated. -/

/-- State of the monitor loop: the `testIteration` counter, both
channels' statistics accumulators, and the statistics reports
emitted so far (in order). -/
structure LoopState where
  testIteration : ℕ
  stats : ChannelStats × ChannelStats
  reports : List (StatsReport × StatsReport)
  deriving DecidableEq

/-- Loop state at entry of the `while(1)` loop: `testIteration = 0`
(lab_main.c line 48) and freshly initialised statistics
(`InitStatistics()` at line 147). -/
def initLoopState : LoopState :=
  { testIteration := 0
    stats := (initChannelStats, initChannelStats)
    reports := [] }

/-- One iteration of the `while(1)` body (lab_main.c lines 159-188),
given the raw sample pair read by `AdcConversion` in this round. -/
def loopRound (st : LoopState) (raw : ℕ × ℕ) : LoopState :=
  let v := AdcResult raw
  let stats1 := (updateChannelStats st.stats.1 v.1, updateChannelStats st.stats.2 v.2)
  if 0 < st.testIteration ∧ st.testIteration % TEST_ITERATIONS = 0 then
    let sc := displaySampleCount st.testIteration
    { testIteration := st.testIteration + 1
      stats := (initChannelStats, initChannelStats)
      reports := st.reports ++
        [(displayChannelStatistics stats1.1 sc, displayChannelStatistics stats1.2 sc)] }
  else
    { testIteration := st.testIteration + 1
      stats := stats1
      reports := st.reports }

/-- Runs the monitor loop over a list of rounds (one raw pair each). -/
def runLoop (st : LoopState) (rounds : List (ℕ × ℕ)) : LoopState :=
  rounds.foldl loopRound st

/-! ## Conversion trigger/wait trace (`AdcConversion`, adc_config.c lines 41-72) -/

/-- Driver calls performed by `AdcConversion`, as observable events.
`poll` events record the value returned by `ADC_getInterruptStatus`. -/
inductive AdcEvent where
  | triggerA
  | pollA (flag : Bool)
  | clearA
  | readA
  | triggerB
  | pollB (flag : Bool)
  | clearB
  | readB
  deriving DecidableEq

/-- Events an `AdcEvent` touching channel A (ADCA). -/
def isChannelAEvent : AdcEvent → Bool
  | .triggerA => true
  | .pollA _ => true
  | .clearA => true
  | .readA => true
  | _ => false

/-- Channel A block of `AdcConversion` (adc_config.c lines 46-56):
`ADC_forceSOC(myADCA_BASE, myADCA_SOC0);` then the busy-wait
`while (ADC_getInterruptStatus(...) == false) {}` (kA failed polls then
one successful poll), `ADC_clearInterruptStatus`, `ADC_readResult`. -/
def adcConversionTraceA (kA : ℕ) : List AdcEvent :=
  AdcEvent.triggerA ::
    (List.replicate kA (AdcEvent.pollA false) ++
      [AdcEvent.pollA true, AdcEvent.clearA, AdcEvent.readA])

/-- Channel B block of `AdcConversion` (adc_config.c lines 61-71),
analogous to the channel A block. -/
def adcConversionTraceB (kB : ℕ) : List AdcEvent :=
  AdcEvent.triggerB ::
    (List.replicate kB (AdcEvent.pollB false) ++
      [AdcEvent.pollB true, AdcEvent.clearB, AdcEvent.readB])

/-- Full trace of driver calls of one `AdcConversion` call: the channel A
block runs to completion, then the channel B block (the source is
straight-line code). -/
def adcConversionTrace (kA kB : ℕ) : List AdcEvent :=
  adcConversionTraceA kA ++ adcConversionTraceB kB

end AdcLab

namespace AdcLab

/-! ## Helper lemmas -/

/-- `VerifyADCReadings` returns true exactly when some channel is plausible. -/
lemma verify_eq_or (r0 r1 : ℕ) :
    VerifyADCReadings (r0, r1) = (plausibleDiff r0 || plausibleSE r1) := by
  cases h0 : plausibleDiff r0 <;> cases h1 : plausibleSE r1 <;>
    simp [VerifyADCReadings, verifyValidCount, h0, h1]

/-- C2: the differential channel's calibration maps `raw` to
`(raw - 32768) * (3.3 / 65536)` within tolerance `1e-4`: it is exact at
mid-scale (`calibrate(32768) = 0`), maps `0` to `-1.65 V` and `65535` to
`+1.65 V` minus one LSB within tolerance, and is total on `[0, 65535]`. -/
theorem c2_differential_calibration :
    adcResultDiff 32768 = 0 ∧
    |adcResultDiff 0 - (-(33 / 20))| < 1 / 10 ^ 4 ∧
    |adcResultDiff 65535 - (33 / 20 - (33 / 10) / 65536)| < 1 / 10 ^ 4 ∧
    ∀ raw : ℕ, raw ≤ 65535 →
      |adcResultDiff raw - ((raw : ℚ) - 32768) * ((33 / 10) / 65536)| < 1 / 10 ^ 4 := by
  refine ⟨by norm_num [adcResultDiff, DIFFERENTIAL],
          by norm_num [adcResultDiff, DIFFERENTIAL, abs_lt],
          by norm_num [adcResultDiff, DIFFERENTIAL, abs_lt], ?_⟩
  intro raw hraw
  have hform : adcResultDiff raw - ((raw : ℚ) - 32768) * ((33 / 10) / 65536)
      = ((raw : ℚ) - 32768) * (DIFFERENTIAL - (33 / 10) / 65536) := by
    simp only [adcResultDiff]
    push_cast
    ring
  have hconst : |DIFFERENTIAL - (33 / 10) / 65536| = 625 / 10 ^ 17 := by
    norm_num [DIFFERENTIAL, abs_sub_comm, abs_of_nonneg]
  have hraw' : (raw : ℚ) ≤ 65535 := by exact_mod_cast hraw
  have hraw0 : (0 : ℚ) ≤ (raw : ℚ) := by positivity
  have hle : |(raw : ℚ) - 32768| ≤ 32768 := by
    rw [abs_le]
    constructor <;> linarith
  calc |adcResultDiff raw - ((raw : ℚ) - 32768) * ((33 / 10) / 65536)|
      = |(raw : ℚ) - 32768| * |DIFFERENTIAL - (33 / 10) / 65536| := by
        rw [hform, abs_mul]
    _ ≤ 32768 * (625 / 10 ^ 17) := by
        rw [hconst]
        exact mul_le_mul_of_nonneg_right hle (by norm_num)
    _ < 1 / 10 ^ 4 := by norm_num

/-- Witness for C2 at `raw = 40000`. -/
theorem c2_differential_calibration_witness :
    |adcResultDiff 40000 - ((40000 : ℚ) - 32768) * ((33 / 10) / 65536)| < 1 / 10 ^ 4 :=
  c2_differential_calibration.2.2.2 40000 (by norm_num)

/-- C3: the single-ended channel's calibration maps `raw` to
`raw * (3.3 / 4096)` within tolerance `1e-4`: it is exact at zero
(`calibrate(0) = 0`), maps `4095` to `3.3 V` minus one LSB within
tolerance, and is total on `[0, 4095]`. -/
theorem c3_single_ended_calibration :
    adcResultSE 0 = 0 ∧
    |adcResultSE 4095 - (33 / 10 - (33 / 10) / 4096)| < 1 / 10 ^ 4 ∧
    ∀ raw : ℕ, raw ≤ 4095 →
      |adcResultSE raw - (raw : ℚ) * ((33 / 10) / 4096)| < 1 / 10 ^ 4 := by
  refine ⟨by norm_num [adcResultSE, SINGLE_ENDED],
          by norm_num [adcResultSE, SINGLE_ENDED, abs_lt], ?_⟩
  intro raw hraw
  have hform : adcResultSE raw - (raw : ℚ) * ((33 / 10) / 4096)
      = (raw : ℚ) * (SINGLE_ENDED - (33 / 10) / 4096) := by
    simp only [adcResultSE]
    ring
  have hconst : |SINGLE_ENDED - (33 / 10) / 4096| = 25 / 10 ^ 13 := by
    norm_num [SINGLE_ENDED, abs_sub_comm, abs_of_nonneg]
  have hraw' : (raw : ℚ) ≤ 4095 := by exact_mod_cast hraw
  have hraw0 : (0 : ℚ) ≤ (raw : ℚ) := by positivity
  have hle : |(raw : ℚ)| ≤ 4095 := by
    rw [abs_le]
    constructor <;> linarith
  calc |adcResultSE raw - (raw : ℚ) * ((33 / 10) / 4096)|
      = |(raw : ℚ)| * |SINGLE_ENDED - (33 / 10) / 4096| := by
        rw [hform, abs_mul]
    _ ≤ 4095 * (25 / 10 ^ 13) := by
        rw [hconst]
        exact mul_le_mul_of_nonneg_right hle (by norm_num)
    _ < 1 / 10 ^ 4 := by norm_num

/-- Witness for C3 at `raw = 2000`. -/
theorem c3_single_ended_calibration_witness :
    |adcResultSE 2000 - (2000 : ℚ) * ((33 / 10) / 4096)| < 1 / 10 ^ 4 :=
  c3_single_ended_calibration.2.2 2000 (by norm_num)

/-- C5: the self-check passes iff at least one channel's raw sample is
plausible; in particular raw samples `(50, 2000)` give PASS although the
differential channel alone is implausible. -/
theorem c5_selfcheck_at_least_one_plausible :
    (∀ r0 r1 : ℕ, VerifyADCReadings (r0, r1) = (plausibleDiff r0 || plausibleSE r1)) ∧
    VerifyADCReadings (50, 2000) = true ∧
    plausibleDiff 50 = false ∧
    plausibleSE 2000 = true :=
  ⟨verify_eq_or, by decide, by decide, by decide⟩

/-- C10: the plausibility bounds are strict (`100 < raw < 65435` for the
differential channel, `10 < raw < 4086` for the single-ended one, so the
boundary values themselves are implausible); over the 12-bit code space
the single-ended test rejects 11 codes at the low end and 10 at the high
end; and when both channels are implausible the self-check returns
false. -/
theorem c10_plausibility_strict_bounds :
    (∀ raw : ℕ, plausibleDiff raw = true ↔ 100 < raw ∧ raw < 65435) ∧
    plausibleDiff 100 = false ∧
    plausibleDiff 65435 = false ∧
    (∀ raw : ℕ, plausibleSE raw = true ↔ 10 < raw ∧ raw < 4086) ∧
    plausibleSE 10 = false ∧
    plausibleSE 4086 = false ∧
    ((Finset.range 4096).filter (fun r => plausibleSE r = false ∧ r ≤ 10)).card = 11 ∧
    ((Finset.range 4096).filter (fun r => plausibleSE r = false ∧ 10 < r)).card = 10 ∧
    (∀ r0 r1 : ℕ, plausibleDiff r0 = false → plausibleSE r1 = false →
      VerifyADCReadings (r0, r1) = false) := by
  have hlow : ((Finset.range 4096).filter fun r => plausibleSE r = false ∧ r ≤ 10)
      = Finset.range 11 := by
    ext r
    simp only [Finset.mem_filter, Finset.mem_range, plausibleSE,
      decide_eq_false_iff_not, not_and, not_lt]
    omega
  have hhigh : ((Finset.range 4096).filter fun r => plausibleSE r = false ∧ 10 < r)
      = Finset.Icc 4086 4095 := by
    ext r
    simp only [Finset.mem_filter, Finset.mem_range, Finset.mem_Icc, plausibleSE,
      decide_eq_false_iff_not, not_and, not_lt]
    omega
  refine ⟨fun raw => by simp [plausibleDiff], by decide, by decide,
          fun raw => by simp [plausibleSE], by decide, by decide,
          by rw [hlow, Finset.card_range],
          by rw [hhigh, Nat.card_Icc], ?_⟩
  intro r0 r1 h0 h1
  rw [verify_eq_or, h0, h1]
  rfl

/-- Witness for C10 at raw samples `(100, 4086)` (both boundary values,
both implausible, self-check fails). -/
theorem c10_plausibility_strict_bounds_witness :
    VerifyADCReadings (100, 4086) = false :=
  c10_plausibility_strict_bounds.2.2.2.2.2.2.2.2 100 4086 (by decide) (by decide)

end AdcLab

namespace AdcLab

/-! ## Statistics window lemmas -/

/-- One `UpdateStatistics` step takes the min of the stored minimum and
the new voltage. -/
lemma update_minV (s : ChannelStats) (v : ℚ) :
    (updateChannelStats s v).minV = min s.minV v := by
  simp only [updateChannelStats, min_def]
  split_ifs <;> first | rfl | linarith

/-- One `UpdateStatistics` step takes the max of the stored maximum and
the new voltage. -/
lemma update_maxV (s : ChannelStats) (v : ℚ) :
    (updateChannelStats s v).maxV = max s.maxV v := by
  simp only [updateChannelStats, max_def, gt_iff_lt]
  split_ifs <;> first | rfl | linarith

lemma runChannelUpdates_nil (s : ChannelStats) : runChannelUpdates s [] = s := rfl

lemma runChannelUpdates_cons (s : ChannelStats) (v : ℚ) (vs : List ℚ) :
    runChannelUpdates s (v :: vs) = runChannelUpdates (updateChannelStats s v) vs := rfl

/-- The stored minimum after a run of updates is the fold of `min` over
the update values. -/
lemma runChannelUpdates_minV (s : ChannelStats) (vs : List ℚ) :
    (runChannelUpdates s vs).minV = vs.foldl min s.minV := by
  induction vs generalizing s with
  | nil => rfl
  | cons v vs ih => rw [runChannelUpdates_cons, ih, update_minV, List.foldl_cons]

/-- The stored maximum after a run of updates is the fold of `max` over
the update values. -/
lemma runChannelUpdates_maxV (s : ChannelStats) (vs : List ℚ) :
    (runChannelUpdates s vs).maxV = vs.foldl max s.maxV := by
  induction vs generalizing s with
  | nil => rfl
  | cons v vs ih => rw [runChannelUpdates_cons, ih, update_maxV, List.foldl_cons]

/-- The stored sum after a run of updates accumulates the update values. -/
lemma runChannelUpdates_sumV (s : ChannelStats) (vs : List ℚ) :
    (runChannelUpdates s vs).sumV = s.sumV + vs.sum := by
  induction vs generalizing s with
  | nil => simp [runChannelUpdates_nil]
  | cons v vs ih =>
    rw [runChannelUpdates_cons, ih, List.sum_cons]
    simp only [updateChannelStats]
    ring

/-- A `min`-fold is bounded by its initial value. -/
lemma foldl_min_le_init (a : ℚ) (vs : List ℚ) : vs.foldl min a ≤ a := by
  induction vs generalizing a with
  | nil => exact le_refl a
  | cons v vs ih =>
    rw [List.foldl_cons]
    exact le_trans (ih (min a v)) (min_le_left a v)

/-- A `min`-fold is bounded by every list element. -/
lemma foldl_min_le_mem (a : ℚ) (vs : List ℚ) : ∀ v ∈ vs, vs.foldl min a ≤ v := by
  induction vs generalizing a with
  | nil => intro v hv; exact absurd hv (List.not_mem_nil v)
  | cons u vs ih =>
    intro v hv
    rw [List.foldl_cons]
    rcases List.mem_cons.mp hv with rfl | hv
    · exact le_trans (foldl_min_le_init (min a v) vs) (min_le_right a v)
    · exact ih (min a u) v hv

/-- A `min`-fold returns its initial value or a list element. -/
lemma foldl_min_mem (a : ℚ) (vs : List ℚ) :
    vs.foldl min a = a ∨ vs.foldl min a ∈ vs := by
  induction vs generalizing a with
  | nil => exact Or.inl rfl
  | cons v vs ih =>
    rw [List.foldl_cons]
    rcases ih (min a v) with h | h
    · rcases min_choice a v with hm | hm
      · exact Or.inl (h.trans hm)
      · exact Or.inr (List.mem_cons.mpr (Or.inl (h.trans hm)))
    · exact Or.inr (List.mem_cons.mpr (Or.inr h))

/-- A `max`-fold dominates its initial value. -/
lemma le_foldl_max_init (a : ℚ) (vs : List ℚ) : a ≤ vs.foldl max a := by
  induction vs generalizing a with
  | nil => exact le_refl a
  | cons v vs ih =>
    rw [List.foldl_cons]
    exact le_trans (le_max_left a v) (ih (max a v))

/-- A `max`-fold dominates every list element. -/
lemma le_foldl_max_mem (a : ℚ) (vs : List ℚ) : ∀ v ∈ vs, v ≤ vs.foldl max a := by
  induction vs generalizing a with
  | nil => intro v hv; exact absurd hv (List.not_mem_nil v)
  | cons u vs ih =>
    intro v hv
    rw [List.foldl_cons]
    rcases List.mem_cons.mp hv with rfl | hv
    · exact le_trans (le_max_right a v) (le_foldl_max_init (max a v) vs)
    · exact ih (max a u) v hv

/-- A `max`-fold returns its initial value or a list element. -/
lemma foldl_max_mem (a : ℚ) (vs : List ℚ) :
    vs.foldl max a = a ∨ vs.foldl max a ∈ vs := by
  induction vs generalizing a with
  | nil => exact Or.inl rfl
  | cons v vs ih =>
    rw [List.foldl_cons]
    rcases ih (max a v) with h | h
    · rcases max_choice a v with hm | hm
      · exact Or.inl (h.trans hm)
      · exact Or.inr (List.mem_cons.mpr (Or.inl (h.trans hm)))
    · exact Or.inr (List.mem_cons.mpr (Or.inr h))

/-- For a nonempty update sequence whose values all lie below the `+10`
sentinel, the stored minimum is the least observed value. -/
lemma run_minV_spec (vs : List ℚ) (hne : vs ≠ []) (hlt : ∀ v ∈ vs, v < 10) :
    (runChannelUpdates initChannelStats vs).minV ∈ vs ∧
    ∀ v ∈ vs, (runChannelUpdates initChannelStats vs).minV ≤ v := by
  have hmin : (runChannelUpdates initChannelStats vs).minV = vs.foldl min 10 :=
    runChannelUpdates_minV initChannelStats vs
  obtain ⟨v0, hv0⟩ := List.exists_mem_of_ne_nil vs hne
  refine ⟨?_, fun v hv => hmin ▸ foldl_min_le_mem 10 vs v hv⟩
  rcases foldl_min_mem 10 vs with h | h
  · exfalso
    have h1 : vs.foldl min 10 ≤ v0 := foldl_min_le_mem 10 vs v0 hv0
    have h2 : v0 < 10 := hlt v0 hv0
    rw [h] at h1
    linarith
  · exact hmin ▸ h

/-- For a nonempty update sequence whose values all lie above the `-10`
sentinel, the stored maximum is the greatest observed value. -/
lemma run_maxV_spec (vs : List ℚ) (hne : vs ≠ []) (hgt : ∀ v ∈ vs, -10 < v) :
    (runChannelUpdates initChannelStats vs).maxV ∈ vs ∧
    ∀ v ∈ vs, v ≤ (runChannelUpdates initChannelStats vs).maxV := by
  have hmax : (runChannelUpdates initChannelStats vs).maxV = vs.foldl max (-10) :=
    runChannelUpdates_maxV initChannelStats vs
  obtain ⟨v0, hv0⟩ := List.exists_mem_of_ne_nil vs hne
  refine ⟨?_, fun v hv => hmax ▸ le_foldl_max_mem (-10) vs v hv⟩
  rcases foldl_max_mem (-10) vs with h | h
  · exfalso
    have h1 : v0 ≤ vs.foldl max (-10) := le_foldl_max_mem (-10) vs v0 hv0
    have h2 : -10 < v0 := hgt v0 hv0
    rw [h] at h1
    linarith
  · exact hmax ▸ h

end AdcLab

namespace AdcLab

/-- C1: after a reset, feeding update values `v_1..v_n` (n ≥ 1), each in
the valid voltage range, leaves the window with `min` equal to the least
value, `max` equal to the greatest value, `sum` equal to their total,
and the snapshot average (computed with the accumulated sample count as
denominator) equal to their arithmetic mean — exactly, hence within the
`1e-4` tolerance. -/
theorem c1_statistics_window_invariant (vs : List ℚ) (hne : vs ≠ [])
    (hrange : ∀ v ∈ vs, -10 < v ∧ v < 10) :
    ((runChannelUpdates initChannelStats vs).minV ∈ vs ∧
      ∀ v ∈ vs, (runChannelUpdates initChannelStats vs).minV ≤ v) ∧
    ((runChannelUpdates initChannelStats vs).maxV ∈ vs ∧
      ∀ v ∈ vs, v ≤ (runChannelUpdates initChannelStats vs).maxV) ∧
    (runChannelUpdates initChannelStats vs).sumV = vs.sum ∧
    (displayChannelStatistics (runChannelUpdates initChannelStats vs) vs.length).avgV
      = vs.sum / (vs.length : ℚ) := by
  have hsum : (runChannelUpdates initChannelStats vs).sumV = vs.sum := by
    rw [runChannelUpdates_sumV]
    simp [initChannelStats]
  refine ⟨run_minV_spec vs hne (fun v hv => (hrange v hv).2),
          run_maxV_spec vs hne (fun v hv => (hrange v hv).1), hsum, ?_⟩
  simp only [displayChannelStatistics, hsum]

/-- Witness for C1 on the update sequence `[1, 2]`. -/
theorem c1_statistics_window_invariant_witness :
    ((runChannelUpdates initChannelStats [1, 2]).minV ∈ [(1 : ℚ), 2] ∧
      ∀ v ∈ [(1 : ℚ), 2], (runChannelUpdates initChannelStats [1, 2]).minV ≤ v) ∧
    ((runChannelUpdates initChannelStats [1, 2]).maxV ∈ [(1 : ℚ), 2] ∧
      ∀ v ∈ [(1 : ℚ), 2], v ≤ (runChannelUpdates initChannelStats [1, 2]).maxV) ∧
    (runChannelUpdates initChannelStats [1, 2]).sumV = ([(1 : ℚ), 2] : List ℚ).sum ∧
    (displayChannelStatistics (runChannelUpdates initChannelStats [1, 2])
        ([(1 : ℚ), 2] : List ℚ).length).avgV
      = ([(1 : ℚ), 2] : List ℚ).sum / (([(1 : ℚ), 2] : List ℚ).length : ℚ) :=
  c1_statistics_window_invariant [1, 2] (List.cons_ne_nil 1 [2])
    (by
      intro v hv
      rcases List.mem_cons.mp hv with rfl | hv
      · norm_num
      rcases List.mem_cons.mp hv with rfl | hv
      · norm_num
      exact absurd hv (List.not_mem_nil v))

/-- C7 counterexample: a snapshot taken right after a reset (zero
accumulated samples, e.g. just after the batch boundary at
`testIteration = 10`) reports the fabricated average `0` together with
the untouched `+10`/`-10` sentinels as min and max, and a sample count
of 10 — it does not signal any "no data" state. -/
theorem c7_counterexample_fabricated_zero :
    (displayChannelStatistics initChannelStats (displaySampleCount 10)).avgV = 0 ∧
    (displayChannelStatistics initChannelStats (displaySampleCount 10)).sampleCount = 10 ∧
    (displayChannelStatistics initChannelStats (displaySampleCount 10)).minV = 10 ∧
    (displayChannelStatistics initChannelStats (displaySampleCount 10)).maxV = -10 := by
  refine ⟨?_, ?_, rfl, rfl⟩ <;>
    simp [displayChannelStatistics, displaySampleCount, initChannelStats, TEST_ITERATIONS]

/-- C7 amended: a snapshot with zero accumulated samples cannot crash —
the denominator `DisplayStatistics` substitutes from the round counter
is always between 1 and 10, so no division by zero occurs — but the
report contains a fabricated average of `0` (and the reset sentinels as
min and max) rather than a distinguished "no data" state. -/
theorem c7_zero_sample_snapshot_no_crash (t : ℕ) :
    (1 ≤ displaySampleCount t ∧ displaySampleCount t ≤ 10) ∧
    (displayChannelStatistics initChannelStats (displaySampleCount t)).avgV = 0 ∧
    (displayChannelStatistics initChannelStats (displaySampleCount t)).minV = 10 ∧
    (displayChannelStatistics initChannelStats (displaySampleCount t)).maxV = -10 := by
  refine ⟨?_, ?_, rfl, rfl⟩
  · simp only [displaySampleCount, TEST_ITERATIONS]
    split
    · omega
    · omega
  · simp [displayChannelStatistics, initChannelStats]

/-- C8: in every batch snapshot of a window that accumulated a nonempty
in-range update sequence, the reported min, max and average are the
stored volt-denominated values, while `peakToPeak` is `max - min`
rescaled to millivolts: it equals `(hi - lo) * 1000` where `lo` and `hi`
are the true least and greatest observed voltages. -/
theorem c8_peak_to_peak_millivolts (vs : List ℚ) (hne : vs ≠ [])
    (hrange : ∀ v ∈ vs, -10 < v ∧ v < 10) (sc : ℕ) :
    (displayChannelStatistics (runChannelUpdates initChannelStats vs) sc).peakToPeak
      = ((runChannelUpdates initChannelStats vs).maxV
          - (runChannelUpdates initChannelStats vs).minV) * 1000 ∧
    (displayChannelStatistics (runChannelUpdates initChannelStats vs) sc).minV
      = (runChannelUpdates initChannelStats vs).minV ∧
    (displayChannelStatistics (runChannelUpdates initChannelStats vs) sc).maxV
      = (runChannelUpdates initChannelStats vs).maxV ∧
    ∃ lo hi, lo ∈ vs ∧ hi ∈ vs ∧ (∀ v ∈ vs, lo ≤ v ∧ v ≤ hi) ∧
      (displayChannelStatistics (runChannelUpdates initChannelStats vs) sc).peakToPeak
        = (hi - lo) * 1000 := by
  obtain ⟨hlomem, hlole⟩ := run_minV_spec vs hne (fun v hv => (hrange v hv).2)
  obtain ⟨himem, hile⟩ := run_maxV_spec vs hne (fun v hv => (hrange v hv).1)
  exact ⟨rfl, rfl, rfl,
    (runChannelUpdates initChannelStats vs).minV,
    (runChannelUpdates initChannelStats vs).maxV,
    hlomem, himem, fun v hv => ⟨hlole v hv, hile v hv⟩, rfl⟩

/-- Witness for C8 on the update sequence `[1, 2]` with sample count 2. -/
theorem c8_peak_to_peak_millivolts_witness :
    (displayChannelStatistics (runChannelUpdates initChannelStats [1, 2]) 2).peakToPeak
      = ((runChannelUpdates initChannelStats [1, 2]).maxV
          - (runChannelUpdates initChannelStats [1, 2]).minV) * 1000 ∧
    (displayChannelStatistics (runChannelUpdates initChannelStats [1, 2]) 2).minV
      = (runChannelUpdates initChannelStats [1, 2]).minV ∧
    (displayChannelStatistics (runChannelUpdates initChannelStats [1, 2]) 2).maxV
      = (runChannelUpdates initChannelStats [1, 2]).maxV ∧
    ∃ lo hi, lo ∈ [(1 : ℚ), 2] ∧ hi ∈ [(1 : ℚ), 2] ∧
      (∀ v ∈ [(1 : ℚ), 2], lo ≤ v ∧ v ≤ hi) ∧
      (displayChannelStatistics (runChannelUpdates initChannelStats [1, 2]) 2).peakToPeak
        = (hi - lo) * 1000 :=
  c8_peak_to_peak_millivolts [1, 2] (List.cons_ne_nil 1 [2])
    (by
      intro v hv
      rcases List.mem_cons.mp hv with rfl | hv
      · norm_num
      rcases List.mem_cons.mp hv with rfl | hv
      · norm_num
      exact absurd hv (List.not_mem_nil v)) 2

/-- C9: every calibrated voltage lies strictly inside the `(-10, +10)`
sentinel interval — the differential output lies in `[-1.65, 1.65)` and
the single-ended output in `[0, 3.3)` — the first update after a reset
overwrites both sentinels with the observed voltage, and after at least
one in-range update the window satisfies `min ≤ max`. -/
theorem c9_sentinels_always_overwritten :
    (∀ raw : ℕ, raw ≤ 65535 →
      -(33 / 20) ≤ adcResultDiff raw ∧ adcResultDiff raw < 33 / 20 ∧
      -10 < adcResultDiff raw ∧ adcResultDiff raw < 10) ∧
    (∀ raw : ℕ, raw ≤ 4095 →
      0 ≤ adcResultSE raw ∧ adcResultSE raw < 33 / 10 ∧
      -10 < adcResultSE raw ∧ adcResultSE raw < 10) ∧
    (∀ v : ℚ, -10 < v → v < 10 →
      (updateChannelStats initChannelStats v).minV = v ∧
      (updateChannelStats initChannelStats v).maxV = v) ∧
    (∀ vs : List ℚ, vs ≠ [] → (∀ v ∈ vs, -10 < v ∧ v < 10) →
      (runChannelUpdates initChannelStats vs).minV
        ≤ (runChannelUpdates initChannelStats vs).maxV) := by
  refine ⟨?_, ?_, ?_, ?_⟩
  · intro raw h
    have hq : (raw : ℚ) ≤ 65535 := by exact_mod_cast h
    have h0 : (0 : ℚ) ≤ (raw : ℚ) := by positivity
    have hform : adcResultDiff raw = ((raw : ℚ) - 32768) * (503540039 / 10 ^ 13) := by
      simp only [adcResultDiff, DIFFERENTIAL]
      push_cast
      ring
    rw [hform]
    refine ⟨by nlinarith, by nlinarith, by nlinarith, by nlinarith⟩
  · intro raw h
    have hq : (raw : ℚ) ≤ 4095 := by exact_mod_cast h
    have h0 : (0 : ℚ) ≤ (raw : ℚ) := by positivity
    have hform : adcResultSE raw = (raw : ℚ) * (80566406 / 10 ^ 11) := by
      simp only [adcResultSE, SINGLE_ENDED]
    rw [hform]
    refine ⟨by nlinarith, by nlinarith, by nlinarith, by nlinarith⟩
  · intro v h1 h2
    constructor
    · simp only [updateChannelStats, initChannelStats]
      rw [if_pos h2]
    · simp only [updateChannelStats, initChannelStats, gt_iff_lt]
      rw [if_pos h1]
  · intro vs hne hrange
    obtain ⟨v0, hv0⟩ := List.exists_mem_of_ne_nil vs hne
    have hmin := (run_minV_spec vs hne (fun v hv => (hrange v hv).2)).2 v0 hv0
    have hmax := (run_maxV_spec vs hne (fun v hv => (hrange v hv).1)).2 v0 hv0
    linarith

/-- Witness for C9 at raw samples `0` and `4095`, voltage `1`, and the
one-element update sequence `[1]`. -/
theorem c9_sentinels_always_overwritten_witness :
    (-(33 / 20) ≤ adcResultDiff 0 ∧ adcResultDiff 0 < 33 / 20 ∧
      -10 < adcResultDiff 0 ∧ adcResultDiff 0 < 10) ∧
    (0 ≤ adcResultSE 4095 ∧ adcResultSE 4095 < 33 / 10 ∧
      -10 < adcResultSE 4095 ∧ adcResultSE 4095 < 10) ∧
    ((updateChannelStats initChannelStats 1).minV = 1 ∧
      (updateChannelStats initChannelStats 1).maxV = 1) ∧
    (runChannelUpdates initChannelStats [1]).minV
      ≤ (runChannelUpdates initChannelStats [1]).maxV :=
  ⟨c9_sentinels_always_overwritten.1 0 (by norm_num),
   c9_sentinels_always_overwritten.2.1 4095 (by norm_num),
   c9_sentinels_always_overwritten.2.2.1 1 (by norm_num) (by norm_num),
   c9_sentinels_always_overwritten.2.2.2 [1] (List.cons_ne_nil 1 [])
     (by
       intro v hv
       rcases List.mem_cons.mp hv with rfl | hv
       · norm_num
       exact absurd hv (List.not_mem_nil v))⟩

end AdcLab

namespace AdcLab

/-- C4: evaluation of the monitor loop at the failing input.  The loop
checks `testIteration % TEST_ITERATIONS == 0` *before* incrementing the
counter, so after exactly 10 rounds no statistics snapshot has been
reported at all; the first snapshot appears during round 11, covers the
11 updates accumulated since the initial reset, yet divides the sum by
`sampleCount = 10`: with every round reading raw samples
`(32768, 4095)` (constant single-ended voltage `v`), the reported
average is `11 * v / 10`, not the true mean `v`. -/
theorem c4_first_batch_denominator_mismatch :
    (runLoop initLoopState (List.replicate 10 (32768, 4095))).reports = [] ∧
    (runLoop initLoopState (List.replicate 10 (32768, 4095))).testIteration = 10 ∧
    (runLoop initLoopState (List.replicate 11 (32768, 4095))).reports
      = [({ minV := 0, maxV := 0, avgV := 0, peakToPeak := 0, sampleCount := 10 },
          { minV := 4095 * SINGLE_ENDED, maxV := 4095 * SINGLE_ENDED,
            avgV := 11 * (4095 * SINGLE_ENDED) / 10, peakToPeak := 0,
            sampleCount := 10 })] ∧
    11 * (4095 * SINGLE_ENDED) / 10 ≠ 4095 * SINGLE_ENDED := by
  refine ⟨?_, ?_, ?_, by norm_num [SINGLE_ENDED]⟩ <;>
    norm_num [runLoop, loopRound, initLoopState, initChannelStats, updateChannelStats,
      displayChannelStatistics, displaySampleCount, AdcResult, adcResultDiff, adcResultSE,
      DIFFERENTIAL, SINGLE_ENDED, TEST_ITERATIONS,
      List.replicate_succ, List.foldl_cons, List.foldl_nil, StatsReport.mk.injEq,
      Prod.ext_iff]

end AdcLab

namespace AdcLab

/-! ## Trace lemmas for `AdcConversion` -/

lemma replicate_append_getElem (x : AdcEvent) (k n : ℕ) (rest : List AdcEvent) :
    (List.replicate k x ++ rest)[k + n]? = rest[n]? := by
  rw [List.getElem?_append_right (by simp)]
  simp

lemma adcConversionTraceA_length (kA : ℕ) : (adcConversionTraceA kA).length = kA + 4 := by
  simp [adcConversionTraceA]

lemma adcConversionTraceB_length (kB : ℕ) : (adcConversionTraceB kB).length = kB + 4 := by
  simp [adcConversionTraceB]

/-- Positions of the four channel A protocol steps inside the channel A
block: trigger at 0, successful poll after `kA` failed polls, then
clear, then read. -/
lemma traceA_positions (kA : ℕ) :
    (adcConversionTraceA kA)[0]? = some AdcEvent.triggerA ∧
    (adcConversionTraceA kA)[kA + 1]? = some (AdcEvent.pollA true) ∧
    (adcConversionTraceA kA)[kA + 2]? = some AdcEvent.clearA ∧
    (adcConversionTraceA kA)[kA + 3]? = some AdcEvent.readA := by
  refine ⟨by simp [adcConversionTraceA], ?_, ?_, ?_⟩
  · show (AdcEvent.triggerA :: (List.replicate kA (AdcEvent.pollA false) ++
      [AdcEvent.pollA true, AdcEvent.clearA, AdcEvent.readA]))[kA + 1]? = _
    rw [List.getElem?_cons_succ]
    have h := replicate_append_getElem (AdcEvent.pollA false) kA 0
      [AdcEvent.pollA true, AdcEvent.clearA, AdcEvent.readA]
    simpa using h
  · show (AdcEvent.triggerA :: (List.replicate kA (AdcEvent.pollA false) ++
      [AdcEvent.pollA true, AdcEvent.clearA, AdcEvent.readA]))[(kA + 1) + 1]? = _
    rw [List.getElem?_cons_succ]
    have h := replicate_append_getElem (AdcEvent.pollA false) kA 1
      [AdcEvent.pollA true, AdcEvent.clearA, AdcEvent.readA]
    simpa using h
  · show (AdcEvent.triggerA :: (List.replicate kA (AdcEvent.pollA false) ++
      [AdcEvent.pollA true, AdcEvent.clearA, AdcEvent.readA]))[(kA + 2) + 1]? = _
    rw [List.getElem?_cons_succ]
    have h := replicate_append_getElem (AdcEvent.pollA false) kA 2
      [AdcEvent.pollA true, AdcEvent.clearA, AdcEvent.readA]
    simpa using h

/-- Positions of the four channel B protocol steps inside the channel B
block. -/
lemma traceB_positions (kB : ℕ) :
    (adcConversionTraceB kB)[0]? = some AdcEvent.triggerB ∧
    (adcConversionTraceB kB)[kB + 1]? = some (AdcEvent.pollB true) ∧
    (adcConversionTraceB kB)[kB + 2]? = some AdcEvent.clearB ∧
    (adcConversionTraceB kB)[kB + 3]? = some AdcEvent.readB := by
  refine ⟨by simp [adcConversionTraceB], ?_, ?_, ?_⟩
  · show (AdcEvent.triggerB :: (List.replicate kB (AdcEvent.pollB false) ++
      [AdcEvent.pollB true, AdcEvent.clearB, AdcEvent.readB]))[kB + 1]? = _
    rw [List.getElem?_cons_succ]
    have h := replicate_append_getElem (AdcEvent.pollB false) kB 0
      [AdcEvent.pollB true, AdcEvent.clearB, AdcEvent.readB]
    simpa using h
  · show (AdcEvent.triggerB :: (List.replicate kB (AdcEvent.pollB false) ++
      [AdcEvent.pollB true, AdcEvent.clearB, AdcEvent.readB]))[(kB + 1) + 1]? = _
    rw [List.getElem?_cons_succ]
    have h := replicate_append_getElem (AdcEvent.pollB false) kB 1
      [AdcEvent.pollB true, AdcEvent.clearB, AdcEvent.readB]
    simpa using h
  · show (AdcEvent.triggerB :: (List.replicate kB (AdcEvent.pollB false) ++
      [AdcEvent.pollB true, AdcEvent.clearB, AdcEvent.readB]))[(kB + 2) + 1]? = _
    rw [List.getElem?_cons_succ]
    have h := replicate_append_getElem (AdcEvent.pollB false) kB 2
      [AdcEvent.pollB true, AdcEvent.clearB, AdcEvent.readB]
    simpa using h

/-- Indices below `kA + 4` land in the channel A block of the trace. -/
lemma trace_getElem_left (kA kB i : ℕ) (hi : i < kA + 4) :
    (adcConversionTrace kA kB)[i]? = (adcConversionTraceA kA)[i]? := by
  rw [adcConversionTrace, List.getElem?_append, adcConversionTraceA_length, if_pos hi]

/-- Indices of the form `kA + 4 + m` land in the channel B block. -/
lemma trace_getElem_right (kA kB m : ℕ) :
    (adcConversionTrace kA kB)[kA + 4 + m]? = (adcConversionTraceB kB)[m]? := by
  rw [adcConversionTrace,
    List.getElem?_append_right (by rw [adcConversionTraceA_length]; omega),
    adcConversionTraceA_length]
  congr 1
  omega

/-- Every event of the channel A block is a channel A event. -/
lemma traceA_events (kA : ℕ) : ∀ e ∈ adcConversionTraceA kA, isChannelAEvent e = true := by
  intro e he
  simp only [adcConversionTraceA, List.mem_cons, List.mem_append, List.mem_replicate,
    List.not_mem_nil, or_false] at he
  rcases he with rfl | ⟨-, rfl⟩ | rfl | rfl | rfl <;> rfl

/-- No event of the channel B block is a channel A event. -/
lemma traceB_events (kB : ℕ) : ∀ e ∈ adcConversionTraceB kB, isChannelAEvent e = false := by
  intro e he
  simp only [adcConversionTraceB, List.mem_cons, List.mem_append, List.mem_replicate,
    List.not_mem_nil, or_false] at he
  rcases he with rfl | ⟨-, rfl⟩ | rfl | rfl | rfl <;> rfl

end AdcLab

namespace AdcLab

/-- C6: in every `AdcConversion` call (with `kA`/`kB` failed polls of
the two completion flags), the trace of driver calls runs channel A's
trigger (index 0), then the successful observation of A's completion
flag (index `kA + 1`), then the clearing of the flag (index `kA + 2`),
then the result read (index `kA + 3`), and only then channel B's
trigger (index `kA + 4`) followed by B's own wait/clear/read; each
trigger, clear, read and successful poll occurs exactly once, every
event before B's trigger concerns channel A, and every event from B's
trigger on concerns channel B — so the two channels' conversions do
not overlap. -/
theorem c6_trigger_wait_clear_read_sequencing (kA kB : ℕ) :
    (adcConversionTrace kA kB)[0]? = some AdcEvent.triggerA ∧
    (adcConversionTrace kA kB)[kA + 1]? = some (AdcEvent.pollA true) ∧
    (adcConversionTrace kA kB)[kA + 2]? = some AdcEvent.clearA ∧
    (adcConversionTrace kA kB)[kA + 3]? = some AdcEvent.readA ∧
    (adcConversionTrace kA kB)[kA + 4]? = some AdcEvent.triggerB ∧
    (adcConversionTrace kA kB)[kA + 5 + kB]? = some (AdcEvent.pollB true) ∧
    (adcConversionTrace kA kB)[kA + 6 + kB]? = some AdcEvent.clearB ∧
    (adcConversionTrace kA kB)[kA + 7 + kB]? = some AdcEvent.readB ∧
    (adcConversionTrace kA kB).length = kA + kB + 8 ∧
    (adcConversionTrace kA kB).count AdcEvent.triggerA = 1 ∧
    (adcConversionTrace kA kB).count (AdcEvent.pollA true) = 1 ∧
    (adcConversionTrace kA kB).count AdcEvent.clearA = 1 ∧
    (adcConversionTrace kA kB).count AdcEvent.readA = 1 ∧
    (adcConversionTrace kA kB).count AdcEvent.triggerB = 1 ∧
    (adcConversionTrace kA kB).count (AdcEvent.pollB true) = 1 ∧
    (adcConversionTrace kA kB).count AdcEvent.clearB = 1 ∧
    (adcConversionTrace kA kB).count AdcEvent.readB = 1 ∧
    (∀ e ∈ (adcConversionTrace kA kB).take (kA + 4), isChannelAEvent e = true) ∧
    (∀ e ∈ (adcConversionTrace kA kB).drop (kA + 4), isChannelAEvent e = false) := by
  obtain ⟨ha0, ha1, ha2, ha3⟩ := traceA_positions kA
  obtain ⟨hb0, hb1, hb2, hb3⟩ := traceB_positions kB
  refine ⟨?_, ?_, ?_, ?_, ?_, ?_, ?_, ?_, ?_, ?_, ?_, ?_, ?_, ?_, ?_, ?_, ?_, ?_, ?_⟩
  · rw [trace_getElem_left kA kB 0 (by omega)]; exact ha0
  · rw [trace_getElem_left kA kB (kA + 1) (by omega)]; exact ha1
  · rw [trace_getElem_left kA kB (kA + 2) (by omega)]; exact ha2
  · rw [trace_getElem_left kA kB (kA + 3) (by omega)]; exact ha3
  · have h : kA + 4 = kA + 4 + 0 := by omega
    rw [h, trace_getElem_right]; exact hb0
  · have h : kA + 5 + kB = kA + 4 + (kB + 1) := by omega
    rw [h, trace_getElem_right]; exact hb1
  · have h : kA + 6 + kB = kA + 4 + (kB + 2) := by omega
    rw [h, trace_getElem_right]; exact hb2
  · have h : kA + 7 + kB = kA + 4 + (kB + 3) := by omega
    rw [h, trace_getElem_right]; exact hb3
  · rw [adcConversionTrace, List.length_append, adcConversionTraceA_length,
      adcConversionTraceB_length]
    omega
  · simp [adcConversionTrace, adcConversionTraceA, adcConversionTraceB,
      List.count_append, List.count_cons, List.count_replicate]
  · simp [adcConversionTrace, adcConversionTraceA, adcConversionTraceB,
      List.count_append, List.count_cons, List.count_replicate]
  · simp [adcConversionTrace, adcConversionTraceA, adcConversionTraceB,
      List.count_append, List.count_cons, List.count_replicate]
  · simp [adcConversionTrace, adcConversionTraceA, adcConversionTraceB,
      List.count_append, List.count_cons, List.count_replicate]
  · simp [adcConversionTrace, adcConversionTraceA, adcConversionTraceB,
      List.count_append, List.count_cons, List.count_replicate]
  · simp [adcConversionTrace, adcConversionTraceA, adcConversionTraceB,
      List.count_append, List.count_cons, List.count_replicate]
  · simp [adcConversionTrace, adcConversionTraceA, adcConversionTraceB,
      List.count_append, List.count_cons, List.count_replicate]
  · simp [adcConversionTrace, adcConversionTraceA, adcConversionTraceB,
      List.count_append, List.count_cons, List.count_replicate]
  · rw [adcConversionTrace, List.take_left' (adcConversionTraceA_length kA)]
    exact traceA_events kA
  · rw [adcConversionTrace, List.drop_left' (adcConversionTraceA_length kA)]
    exact traceB_events kB

end AdcLab
